import Mathlib

/-
  Verification development for the Calypso literate-programming "tangle" pipeline.

  The definitions below are shallow embeddings of the Python sources:
    - src/calypso/bootstrap/code_reader.py  (in-memory scanner, splitter, assembler)
    - src/bootstrap/code_reader.py          (same scanner/assembler; older root detection)
    - src/code_reader/code_reader.py        (older scanner with unconditional strip in close)
    - src/blue/scanner.py + src/blue/database.py  (sqlite pipeline: per-section fragments,
      separator between definitions, SQL LIKE abbreviation resolution)
    - src/blue/bootstrap/scanner.py         (older sqlite pipeline; fragment-count check)
  Text is modelled as List Char.  Python file reading is modelled on the already
  newline-translated text of a file (text mode).  Recursion that is not structural
  in the Python source carries an explicit fuel argument; running out of fuel is the
  distinguished error Err.outOfFuel, never confused with an error that the Python
  code raises.
-/

namespace Calypso

abbrev Chars := List Char

-- Decidable equality for Except results, used to state concrete evaluations.
deriving instance DecidableEq for Except

-- Characters stripped by Python str.strip() (ASCII whitespace).
def isPyWs (c : Char) : Bool :=
  c == ' ' || c == '\t' || c == '\n' || c == '\r' || c == '\x0b' || c == '\x0c'

def pyStrip (s : Chars) : Chars :=
  ((s.dropWhile isPyWs).reverse.dropWhile isPyWs).reverse

-- BAD_SECTION_NAME_PATTERN = re.compile(r"<<|>>") : search = contains an adjacent pair.
def hasPair (a b : Char) : Chars → Bool
  | x :: y :: rest => (x == a && y == b) || hasPair a b (y :: rest)
  | _ => false

def badName (s : Chars) : Bool := hasPair '<' '<' s || hasPair '>' '>' s

-- Python str.endswith("\n") on the accumulated text.
def endsWithNl (s : Chars) : Bool := s.getLast? == some '\n'

-- str.rstrip("\r\n") : drop trailing characters drawn from the set.
def rstripCRLF (s : Chars) : Chars :=
  (s.reverse.dropWhile (fun c => c == '\r' || c == '\n')).reverse

-- The conditional strip used when a code section closes (bootstrap, calypso, blue).
def stripTrailingNl (s : Chars) : Chars := if endsWithNl s then s.dropLast else s

-- Python str.splitlines boundaries.
def lineBreakChars : Chars :=
  ['\n', '\r', '\x0b', '\x0c', '\x1c', '\x1d', '\x1e', '\x85', '\u2028', '\u2029']

def isLineBreak (c : Char) : Bool := lineBreakChars.any (fun x => x == c)

-- str.splitlines(keepends=True); a \r\n pair is one boundary.
def pySplitlinesGo : Chars → Chars → List Chars
  | [], cur => if cur = [] then [] else [cur.reverse]
  | '\r' :: '\n' :: rest, cur => (cur.reverse ++ ['\r', '\n']) :: pySplitlinesGo rest []
  | c :: rest, cur =>
    if isLineBreak c then (cur.reverse ++ [c]) :: pySplitlinesGo rest []
    else pySplitlinesGo rest (c :: cur)

def pySplitlines (s : Chars) : List Chars := pySplitlinesGo s []

-- File lines as produced by iterating a text-mode file: split after each newline.
def splitLinesKeepNlGo : Chars → Chars → List Chars
  | [], cur => if cur = [] then [] else [cur.reverse]
  | '\n' :: rest, cur => (cur.reverse ++ ['\n']) :: splitLinesKeepNlGo rest []
  | c :: rest, cur => splitLinesKeepNlGo rest (c :: cur)

def splitLinesKeepNl (s : Chars) : List Chars := splitLinesKeepNlGo s []

-- Insertion-ordered dictionary as an association list (Python dict semantics).
def alookup {α : Type} : List (Chars × α) → Chars → Option α
  | [], _ => none
  | (k, v) :: rest, n => if k = n then some v else alookup rest n

def aset {α : Type} : List (Chars × α) → Chars → α → List (Chars × α)
  | [], k, v => [(k, v)]
  | (k0, v0) :: rest, k, v =>
    if k0 = k then (k0, v) :: rest else (k0, v0) :: aset rest k v

-- Set-like accumulation (only membership is ever observed).
def addName (acc : List Chars) (n : Chars) : List Chars :=
  if n ∈ acc then acc else acc ++ [n]

def mergeNames (acc : List Chars) (ns : List Chars) : List Chars :=
  ns.foldl addName acc

/-
  CODE_BLOCK_REFERENCE_PATTERN (src/blue/base/patterns.py, used verbatim by
  src/calypso/bootstrap/code_reader.py):
     (?P<indent>[ \t]*)(?P<complete_reference><<(?P<just_the_referenced_name>.*?)>>)
  tryClose implements the lazy close: the referenced name is everything up to the
  first ">>", and "." does not cross a newline.
-/
def tryClose : Chars → Option (Chars × Chars)
  | '>' :: '>' :: rest => some ([], rest)
  | c :: cs =>
    if c = '\n' then none
    else (tryClose cs).map (fun p => (c :: p.1, p.2))
  | [] => none

/-
  nextRefGo scans for the next match of the reference pattern, the way re.finditer
  does: advance one position on failure; the indent group is the maximal space/tab
  run immediately before a "<<" that closes on the same line.  Returns
  (text before the indent, indent, raw captured name, rest after the match).
-/
def nextRefGo : Nat → Chars → Chars → Chars → Option (Chars × Chars × Chars × Chars)
  | 0, _, _, _ => none
  | _ + 1, [], _, _ => none
  | fuel + 1, '<' :: '<' :: rest, revPre, revRun =>
    match tryClose rest with
    | some (nm, rest2) => some (revPre.reverse, revRun.reverse, nm, rest2)
    | none => nextRefGo fuel ('<' :: rest) ('<' :: (revRun ++ revPre)) []
  | fuel + 1, c :: cs, revPre, revRun =>
    if c = ' ' ∨ c = '\t' then nextRefGo fuel cs revPre (c :: revRun)
    else nextRefGo fuel cs (c :: (revRun ++ revPre)) []

def nextRef (s : Chars) : Option (Chars × Chars × Chars × Chars) :=
  nextRefGo (s.length + 1) s [] []

-- Error taxonomy of the pipeline (src/base/exceptions.py, src/blue/errors.py).
inductive Err where
  | badSectionName
  | fileIncludeRecursion
  | codeSectionRecursion (name : Chars)
  | noSuchCodeSection (name : Chars)
  | noRootCodeSectionsFound
  | nonUniqueAbbreviation
  | missingIncludeFile (path : Chars)
  | outOfFuel
deriving DecidableEq, Repr

-- Fragment of the in-memory pipelines: plain code, or a CodeSectionReference.
inductive Frag where
  | plain (code : Chars)
  | ref (name : Chars) (indent : Chars)
deriving DecidableEq, Repr

/-
  src/calypso/bootstrap/code_reader.py, split_code_sections_into_fragment_lists,
  per-section loop (lines 126-150).  carry holds the literal text of an escaped
  reference, which Python leaves before plain_code_start so that it lands in the
  next plain slice.  Returned names are the referenced (non-escaped) targets.
-/
def splitCalGo : Nat → Chars → Chars → List Frag → List Chars →
    Except Err (List Frag × List Chars)
  | 0, _, _, _, _ => .error .outOfFuel
  | fuel + 1, carry, s, accFrags, accRefs =>
    match nextRef s with
    | none =>
      let rest := carry ++ s
      .ok (accFrags ++ (if rest = [] then [] else [.plain rest]), accRefs)
    | some (pre, ind, rawName, after) =>
      let nm := pyStrip rawName
      if badName nm then .error .badSectionName
      else
        let plainCode := carry ++ pre ++ ind
        if plainCode.getLast? = some '\\' then
          let plainCode := plainCode.dropLast
          let acc2 := accFrags ++ (if plainCode = [] then [] else [.plain plainCode])
          splitCalGo fuel (['<', '<'] ++ rawName ++ ['>', '>']) after acc2 accRefs
        else
          let acc2 := (accFrags ++ (if plainCode = [] then [] else [.plain plainCode]))
            ++ [.ref nm ind]
          splitCalGo fuel [] after acc2 (addName accRefs nm)

def splitSectionCal (s : Chars) : Except Err (List Frag × List Chars) :=
  splitCalGo (s.length + 1) [] s [] []

/-
  src/bootstrap/code_reader.py, split_code_sections_into_fragment_lists,
  per-section loop (lines 156-169): same scan but with no escape handling,
  every match becomes a reference.
-/
def splitBootGo : Nat → Chars → List Frag → List Chars →
    Except Err (List Frag × List Chars)
  | 0, _, _, _ => .error .outOfFuel
  | fuel + 1, s, accFrags, accRefs =>
    match nextRef s with
    | none =>
      .ok (accFrags ++ (if s = [] then [] else [.plain s]), accRefs)
    | some (pre, ind, rawName, after) =>
      let nm := pyStrip rawName
      if badName nm then .error .badSectionName
      else
        let plainCode := pre ++ ind
        let acc2 := (accFrags ++ (if plainCode = [] then [] else [.plain plainCode]))
          ++ [.ref nm ind]
        splitBootGo fuel after acc2 (addName accRefs nm)

def splitSectionBoot (s : Chars) : Except Err (List Frag × List Chars) :=
  splitBootGo (s.length + 1) s [] []

-- Shared driver: split every section of the dictionary, in insertion order.
def splitAllGo (splitter : Chars → Except Err (List Frag × List Chars)) :
    List (Chars × Chars) → List (Chars × List Frag) → List Chars →
    Except Err (List (Chars × List Frag) × List Chars)
  | [], dAcc, refsAcc => .ok (dAcc, refsAcc)
  | (n, txt) :: rest, dAcc, refsAcc =>
    match splitter txt with
    | .error e => .error e
    | .ok (frags, refs) => splitAllGo splitter rest (dAcc ++ [(n, frags)]) (mergeNames refsAcc refs)

/-
  src/calypso/bootstrap/code_reader.py lines 121-155: roots are the section names
  minus the referenced names; an empty root set raises NoRootCodeSectionsFound.
-/
def calSplit (secs : List (Chars × Chars)) :
    Except Err (List (Chars × List Frag) × List Chars) :=
  match splitAllGo splitSectionCal secs [] [] with
  | .error e => .error e
  | .ok (d, referenced) =>
    let allNames := secs.map Prod.fst
    let roots := allNames.filter (fun n => ¬ n ∈ referenced)
    if roots = [] then .error .noRootCodeSectionsFound else .ok (d, roots)

-- Python set equality between the collected name lists.
def sameNameSet (a b : List Chars) : Prop :=
  (∀ n ∈ a, n ∈ b) ∧ (∀ n ∈ b, n ∈ a)

instance sameNameSetDec (a b : List Chars) : Decidable (sameNameSet a b) := by
  unfold sameNameSet; infer_instance

/-
  The plain-fragment emission loop shared by every assembler in the repository
  (src/calypso/bootstrap/code_reader.py lines 183-189 and the twins):
      needs_indent = hunk_in_progress.endswith("\n")
      for line in fragment.splitlines(keepends=True):
          if needs_indent: hunk_in_progress += indent
          hunk_in_progress += line
          needs_indent = True
-/
def appendLines (indent : Chars) : List Chars → Chars → Bool → Chars
  | [], h, _ => h
  | l :: ls, h, ni => appendLines indent ls ((h ++ (if ni then indent else [])) ++ l) true

def appendPlain (h indent frag : Chars) : Chars :=
  appendLines indent (pySplitlines frag) h (endsWithNl h)

/-
  src/calypso/bootstrap/code_reader.py, coalesce_fragments (lines 158-198).
  The Python name_stack is one shared mutable list; here it is threaded through
  and returned, so that push/recursion/pop order is preserved.  The fuel argument
  is an artifact of the embedding (Python recurses without fuel).
-/
def coalListCal
    (step : Chars → Chars → List Chars → Chars → Except Err (Chars × List Chars))
    (indent : Chars) :
    List Frag → Chars → List Chars → Except Err (Chars × List Chars)
  | [], h, st => .ok (h, st)
  | .plain s :: fs, h, st => coalListCal step indent fs (appendPlain h indent s) st
  | .ref n w :: fs, h, st =>
    match step h n st (indent ++ w) with
    | .error e => .error e
    | .ok (h2, st2) => coalListCal step indent fs h2 st2

def calCoalesce : Nat → Chars → Chars → List (Chars × List Frag) → List Chars → Chars →
    Except Err (Chars × List Chars)
  | 0, _, _, _, _, _ => .error .outOfFuel
  | fuel + 1, h, name, d, stack, indent =>
    if name ∈ stack then .error (.codeSectionRecursion name)
    else
      let stack2 := name :: stack
      match alookup d name with
      | none => .error (.noSuchCodeSection name)
      | some frags =>
        match coalListCal (fun h2 n st2 i2 => calCoalesce fuel h2 n d st2 i2)
            indent frags h stack2 with
        | .error e => .error e
        | .ok (h2, st3) => .ok (h2, st3.tail)

/-
  src/calypso/bootstrap/code_reader.py, get_code_files (lines 201-214): each root
  is assembled from an empty hunk, then rstrip("\r\n") + "\n".
-/
def buildOutputs (fuel : Nat) (d : List (Chars × List Frag)) :
    List Chars → Except Err (List (Chars × Chars))
  | [] => .ok []
  | r :: rs =>
    match calCoalesce fuel [] r d [] [] with
    | .error e => .error e
    | .ok (h, _) =>
      match buildOutputs fuel d rs with
      | .error e => .error e
      | .ok outs => .ok ((r, rstripCRLF h ++ ['\n']) :: outs)

-- Tangle starting from an already-scanned section dictionary
-- (src/calypso/bootstrap/code_reader.py get_code_files after coalesce_code_sections).
def calTangleSecs (fuel : Nat) (secs : List (Chars × Chars)) : Except Err (List (Chars × Chars)) :=
  match calSplit secs with
  | .error e => .error e
  | .ok (d, roots) => buildOutputs fuel d roots

/-
  src/bootstrap/code_reader.py lines 150-173: the error is raised only when the
  referenced-name set EQUALS the section-name set; the returned root set is still
  the difference.
-/
def bootSplit (secs : List (Chars × Chars)) :
    Except Err (List (Chars × List Frag) × List Chars) :=
  match splitAllGo splitSectionBoot secs [] [] with
  | .error e => .error e
  | .ok (d, nonroots) =>
    let allNames := secs.map Prod.fst
    if sameNameSet allNames nonroots then .error .noRootCodeSectionsFound
    else .ok (d, allNames.filter (fun n => ¬ n ∈ nonroots))

-- src/bootstrap/code_reader.py get_code_files from the section dictionary; its
-- coalesce_fragments is textually identical to the calypso one embedded above.
def bootTangleSecs (fuel : Nat) (secs : List (Chars × Chars)) : Except Err (List (Chars × Chars)) :=
  match bootSplit secs with
  | .error e => .error e
  | .ok (d, roots) => buildOutputs fuel d roots

/-
  Line classification of the scanner.  Python re anchors ^...$ on a line that
  still carries its trailing newline; $ matches just before that newline, so the
  patterns are decided on the line core.
-/
def lineCore (l : Chars) : Chars := if endsWithNl l then l.dropLast else l

-- CODE_BLOCK_START_PATTERN = r"^<<(.*)>>=$" (greedy group, anchored both ends).
def codeStartName (l : Chars) : Option Chars :=
  let c := lineCore l
  if 5 ≤ c.length ∧ c.take 2 = ['<', '<'] ∧ c.drop (c.length - 3) = ['>', '>', '='] then
    some ((c.drop 2).take (c.length - 5))
  else none

-- DOCUMENTATION_BLOCK_START_PATTERN = r"^@$"
def isDocLine (l : Chars) : Bool := lineCore l == ['@']

-- INCLUDE_STATEMENT_PATTERN = r"^@include\((.*)\)$"
def includePath (l : Chars) : Option Chars :=
  let c := lineCore l
  if 10 ≤ c.length ∧ c.take 9 = "@include(".data ∧ c.getLast? = some ')' then
    some ((c.drop 9).dropLast)
  else none

-- Scanner state: the section in progress and the insertion-ordered section dict.
structure ScanSt where
  current : Option (Chars × Chars)
  secs : List (Chars × Chars)
deriving DecidableEq, Repr

/-
  src/calypso/bootstrap/code_reader.py, close_code_section (lines 38-54), identical
  in src/bootstrap/code_reader.py (lines 69-85): strip one trailing newline when
  present, then append to any previous definition of the same name with a single
  newline separator; the defaultdict keeps the entry even when the code is empty.
-/
def closeCodeSection (st : ScanSt) : ScanSt :=
  match st.current with
  | none => st
  | some (n, code) =>
    let code := stripTrailingNl code
    match alookup st.secs n with
    | some old => { current := none, secs := aset st.secs n (old ++ '\n' :: code) }
    | none => { current := none, secs := st.secs ++ [(n, code)] }

/-
  src/calypso/bootstrap/code_reader.py, scan_file (lines 56-98).  recFile performs
  the recursive scan of an included file (the include path is modelled as the
  literal key into the file table; directory resolution is outside the model).
-/
def scanLinesCal (recFile : Chars → ScanSt → Except Err ScanSt) :
    List Chars → ScanSt → Except Err ScanSt
  | [], st => .ok (closeCodeSection st)
  | line :: rest, st =>
    match codeStartName line with
    | some raw =>
      let st := closeCodeSection st
      let nm := pyStrip raw
      if nm = [] then .error .badSectionName
      else if badName nm then .error .badSectionName
      else scanLinesCal recFile rest { st with current := some (nm, []) }
    | none =>
      if isDocLine line then scanLinesCal recFile rest (closeCodeSection st)
      else
        match includePath line with
        | some p =>
          match recFile p (closeCodeSection st) with
          | .error e => .error e
          | .ok st2 => scanLinesCal recFile rest st2
        | none =>
          match st.current with
          | some (n, code) =>
            scanLinesCal recFile rest { st with current := some (n, code ++ line) }
          | none => scanLinesCal recFile rest st

def scanFileCal : Nat → List (Chars × Chars) → Chars → List Chars → ScanSt →
    Except Err ScanSt
  | 0, _, _, _, _ => .error .outOfFuel
  | fuel + 1, env, path, stack, st =>
    if path ∈ stack then .error .fileIncludeRecursion
    else
      match alookup env path with
      | none => .error (.missingIncludeFile path)
      | some text =>
        scanLinesCal (fun p st2 => scanFileCal fuel env p (path :: stack) st2)
          (splitLinesKeepNl text) st

def calScan (env : List (Chars × Chars)) (root : Chars) : Except Err (List (Chars × Chars)) :=
  match scanFileCal (env.length + 2) env root [] ⟨none, []⟩ with
  | .error e => .error e
  | .ok st => .ok st.secs

-- get_code_files for the calypso pipeline: scan, split, detect roots, assemble.
def calGetCodeFiles (fuel : Nat) (env : List (Chars × Chars)) (root : Chars) :
    Except Err (List (Chars × Chars)) :=
  match calScan env root with
  | .error e => .error e
  | .ok secs =>
    match calSplit secs with
    | .error e => .error e
    | .ok (d, roots) => buildOutputs fuel d roots

-- Tangle of a single file with no includes.
def calTangle (fuel : Nat) (text : Chars) : Except Err (List (Chars × Chars)) :=
  calGetCodeFiles fuel [([], text)] []

/-
  src/code_reader/code_reader.py, close_code_section (lines 59-66): the strip is
  UNCONDITIONAL (code[:-1]), and there is no empty-name error in scan_file.
-/
def crCloseCodeSection (st : ScanSt) : ScanSt :=
  match st.current with
  | none => st
  | some (n, code) =>
    let code := code.dropLast
    match alookup st.secs n with
    | some old => { current := none, secs := aset st.secs n (old ++ '\n' :: code) }
    | none => { current := none, secs := st.secs ++ [(n, code)] }

def scanLinesCr (recFile : Chars → ScanSt → Except Err ScanSt) :
    List Chars → ScanSt → Except Err ScanSt
  | [], st => .ok (crCloseCodeSection st)
  | line :: rest, st =>
    match codeStartName line with
    | some raw =>
      let st := crCloseCodeSection st
      let nm := pyStrip raw
      if badName nm then .error .badSectionName
      else scanLinesCr recFile rest { st with current := some (nm, []) }
    | none =>
      if isDocLine line then scanLinesCr recFile rest (crCloseCodeSection st)
      else
        match includePath line with
        | some p =>
          match recFile p (crCloseCodeSection st) with
          | .error e => .error e
          | .ok st2 => scanLinesCr recFile rest st2
        | none =>
          match st.current with
          | some (n, code) =>
            scanLinesCr recFile rest { st with current := some (n, code ++ line) }
          | none => scanLinesCr recFile rest st

def scanFileCr : Nat → List (Chars × Chars) → Chars → List Chars → ScanSt →
    Except Err ScanSt
  | 0, _, _, _, _ => .error .outOfFuel
  | fuel + 1, env, path, stack, st =>
    if path ∈ stack then .error .fileIncludeRecursion
    else
      match alookup env path with
      | none => .error (.missingIncludeFile path)
      | some text =>
        scanLinesCr (fun p st2 => scanFileCr fuel env p (path :: stack) st2)
          (splitLinesKeepNl text) st

def crScan (env : List (Chars × Chars)) (root : Chars) : Except Err (List (Chars × Chars)) :=
  match scanFileCr (env.length + 2) env root [] ⟨none, []⟩ with
  | .error e => .error e
  | .ok st => .ok st.secs

/-
  The blue pipeline (src/blue/scanner.py with src/blue/database.py, and the older
  src/blue/bootstrap/scanner.py).  Document sections carry a kind, an optional
  name (code sections only) and raw text; their 1-based position stands for the
  sqlite row id, which orders fragments and separates concatenated definitions.
-/
inductive BFrag where
  | plain (data : Chars)
  | ref (name : Chars) (indent : Chars)
  | escRef (name : Chars)
deriving DecidableEq, Repr

structure DSec where
  isCode : Bool
  name : Option Chars
  data : Chars
deriving DecidableEq, Repr

-- split_sections_into_fragment_streams (src/blue/scanner.py lines 115-142).
def splitBlueGo : Nat → Chars → List BFrag → Except Err (List BFrag)
  | 0, _, _ => .error .outOfFuel
  | fuel + 1, s, acc =>
    match nextRef s with
    | none => .ok (acc ++ (if s = [] then [] else [.plain s]))
    | some (pre, ind, rawName, after) =>
      let nm := pyStrip rawName
      if badName nm then .error .badSectionName
      else
        let plainText := pre ++ ind
        if plainText.getLast? = some '\\' then
          let pt := plainText.dropLast
          splitBlueGo fuel after
            ((acc ++ (if pt = [] then [] else [.plain pt])) ++ [.escRef nm])
        else
          splitBlueGo fuel after
            ((acc ++ (if plainText = [] then [] else [.plain plainText])) ++ [.ref nm ind])

def splitSectionBlue (s : Chars) : Except Err (List BFrag) :=
  splitBlueGo (s.length + 1) s []

-- All fragments of the corpus tagged with their parent document-section id.
def blueFragsGo : Nat → List DSec → Except Err (List (Nat × BFrag))
  | _, [] => .ok []
  | id, sec :: rest =>
    match splitSectionBlue sec.data with
    | .error e => .error e
    | .ok fs =>
      match blueFragsGo (id + 1) rest with
      | .error e => .error e
      | .ok fs2 => .ok (fs.map (fun f => (id, f)) ++ fs2)

def blueFrags (secs : List DSec) : Except Err (List (Nat × BFrag)) :=
  blueFragsGo 1 secs

def secNameOfId (secs : List DSec) (id : Nat) : Option Chars :=
  match secs[id - 1]? with
  | some s => s.name
  | none => none

-- group_fragment_streams_by_section_name: a fragment belongs to a name when its
-- parent document section carries that name.
def blueFragsForName (secs : List DSec) (allf : List (Nat × BFrag)) (name : Chars) :
    List (Nat × BFrag) :=
  allf.filter (fun p => secNameOfId secs p.1 == some name)

/-- Modelled from the spec: src/blue/scanner.py calls database.name_has_a_definition,
which is absent from src/blue/database.py; per the spec a reference fails with
NoSuchCodeSection exactly when no DocumentSection defines the name. -/
def blueHasDef (secs : List DSec) (name : Chars) : Bool :=
  secs.any (fun s => s.name == some name)

/-
  resolve_named_code_sections_into_plain_text, inner coalesce_fragments
  (src/blue/scanner.py lines 183-230).  The document-section separator state
  (separator string and current parent id) is threaded along the row loop; the
  stack and the recorded non-root names are threaded exactly like the shared
  Python lists.
-/
def coalListBlue
    (step : Chars → Chars → List Chars → List Chars → Chars →
      Except Err (Chars × List Chars × List Chars)) (indent : Chars) :
    List (Nat × BFrag) → Chars → List Chars → List Chars → Option Nat → Chars →
    Except Err (Chars × List Chars × List Chars)
  | [], h, st, nr, _, _ => .ok (h, st, nr)
  | (pid, f) :: fs, h, st, nr, cur, sep =>
    let h := if cur = some pid then h else h ++ sep
    let sep2 := if cur = some pid then sep else ['\n']
    match f with
    | .plain s => coalListBlue step indent fs (appendPlain h indent s) st nr (some pid) sep2
    | .escRef n =>
      coalListBlue step indent fs (h ++ ['<', '<'] ++ n ++ ['>', '>']) st nr (some pid) sep2
    | .ref n w =>
      match step h n st nr (indent ++ w) with
      | .error e => .error e
      | .ok (h2, st2, nr2) => coalListBlue step indent fs h2 st2 nr2 (some pid) sep2

def blueCoalesce : Nat → List DSec → List (Nat × BFrag) → Chars → Option (List Chars) →
    Chars → Chars → List Chars → Except Err (Chars × List Chars × List Chars)
  | 0, _, _, _, _, _, _, _ => .error .outOfFuel
  | fuel + 1, secs, allf, name, stackOpt, h, indent, nr =>
    let stack := match stackOpt with | none => [] | some st => st
    let nr := match stackOpt with | none => nr | some _ => addName nr name
    if name ∈ stack then .error (.codeSectionRecursion name)
    else if ¬ blueHasDef secs name then .error (.noSuchCodeSection name)
    else
      match coalListBlue
          (fun h2 n st2 nr2 i2 => blueCoalesce fuel secs allf n (some st2) h2 i2 nr2)
          indent (blueFragsForName secs allf name) h (name :: stack) nr none [] with
      | .error e => .error e
      | .ok (h2, st3, nr3) => .ok (h2, st3.tail, nr3)

/-
  src/blue/bootstrap/scanner.py, coalesce_fragments (lines 287-331): no
  definition check; instead, NoSuchCodeSection is raised after the row loop when
  the name had zero fragments.
-/
def blueBootCoalesce : Nat → List DSec → List (Nat × BFrag) → Chars → Option (List Chars) →
    Chars → Chars → List Chars → Except Err (Chars × List Chars × List Chars)
  | 0, _, _, _, _, _, _, _ => .error .outOfFuel
  | fuel + 1, secs, allf, name, stackOpt, h, indent, nr =>
    let stack := match stackOpt with | none => [] | some st => st
    let nr := match stackOpt with | none => nr | some _ => addName nr name
    if name ∈ stack then .error (.codeSectionRecursion name)
    else
      let rows := blueFragsForName secs allf name
      match coalListBlue
          (fun h2 n st2 nr2 i2 => blueBootCoalesce fuel secs allf n (some st2) h2 i2 nr2)
          indent rows h (name :: stack) nr none [] with
      | .error e => .error e
      | .ok (h2, st3, nr3) =>
        if rows.isEmpty then .error (.noSuchCodeSection name) else .ok (h2, st3.tail, nr3)

-- One name resolved to final text, with the trailing-newline normalisation of
-- src/blue/scanner.py line 236 (and src/blue/bootstrap/scanner.py line 354).
def blueResolveOne (fuel : Nat) (secs : List DSec) (name : Chars) : Except Err Chars :=
  match blueFrags secs with
  | .error e => .error e
  | .ok allf =>
    match blueCoalesce fuel secs allf name none [] [] [] with
    | .error e => .error e
    | .ok (h, _, _) => .ok (rstripCRLF h ++ ['\n'])

def blueBootResolveOne (fuel : Nat) (secs : List DSec) (name : Chars) : Except Err Chars :=
  match blueFrags secs with
  | .error e => .error e
  | .ok allf =>
    match blueBootCoalesce fuel secs allf name none [] [] [] with
    | .error e => .error e
    | .ok (h, _, _) => .ok (rstripCRLF h ++ ['\n'])

/-
  Abbreviation resolution (src/blue/scanner.py resolve_all_abbreviations with
  src/blue/database.py resolve_abbreviation).  The SQL comparison is
      name LIKE abbreviation || the percent sign
  with default sqlite LIKE semantics: ASCII-case-insensitive, the percent sign
  matching any run and the underscore matching any single character.
-/
def asciiLower (c : Char) : Char :=
  if 'A' ≤ c ∧ c ≤ 'Z' then Char.ofNat (c.toNat + 32) else c

def likeCharEq (p c : Char) : Bool := asciiLower p == asciiLower c

def sqlLikeGo : Nat → Chars → Chars → Bool
  | 0, _, _ => false
  | fuel + 1, p, s =>
    match p, s with
    | [], [] => true
    | [], _ :: _ => false
    | '%' :: ps, s1 =>
      sqlLikeGo fuel ps s1 ||
        (match s1 with
         | [] => false
         | _ :: ss => sqlLikeGo fuel ('%' :: ps) ss)
    | '_' :: _, [] => false
    | '_' :: ps, _ :: ss => sqlLikeGo fuel ps ss
    | _ :: _, [] => false
    | p0 :: ps, c :: ss => likeCharEq p0 c && sqlLikeGo fuel ps ss

def sqlLike (p s : Chars) : Bool := sqlLikeGo (p.length + s.length + 1) p s

-- SELECT name FROM code_section_full_names WHERE name LIKE ? || the percent sign
def resolveAbbrevMatches (fullNames : List Chars) (ab : Chars) : List Chars :=
  fullNames.filter (fun n => sqlLike (ab ++ ['%']) n)

-- fix_abbreviations inner body: chop the trailing "...", collect the match set,
-- demand exactly one member.
def fixAbbreviation (fullNames : List Chars) (name : Chars) : Except Err Chars :=
  match (resolveAbbrevMatches fullNames (name.take (name.length - 3))).dedup with
  | [m] => .ok m
  | _ => .error .nonUniqueAbbreviation

-- name LIKE percent-dot-dot-dot : ends with three literal dots.
def nameEndsDots (n : Chars) : Bool := n.reverse.take 3 == ['.', '.', '.']

-- collect_full_section_names: unabbreviated code-section names united with
-- unabbreviated reference-fragment targets (escaped references excluded, the SQL
-- restricts to kind reference).
def collectFullNames (secs : List DSec) (allf : List (Nat × BFrag)) : List Chars :=
  let sectionNames := secs.filterMap (fun s => if s.isCode then s.name else none)
  let refNames := allf.filterMap (fun p =>
    match p.2 with
    | .ref n _ => some n
    | _ => none)
  mergeNames [] ((sectionNames.filter (fun n => ¬ nameEndsDots n)) ++
    (refNames.filter (fun n => ¬ nameEndsDots n)))

def fixSectionNames (fullNames : List Chars) : List DSec → Except Err (List DSec)
  | [] => .ok []
  | sec :: rest =>
    match sec.name with
    | some n =>
      if sec.isCode && nameEndsDots n then
        match fixAbbreviation fullNames n with
        | .error e => .error e
        | .ok full =>
          match fixSectionNames fullNames rest with
          | .error e => .error e
          | .ok rest2 => .ok ({ sec with name := some full } :: rest2)
      else
        match fixSectionNames fullNames rest with
        | .error e => .error e
        | .ok rest2 => .ok (sec :: rest2)
    | none =>
      match fixSectionNames fullNames rest with
      | .error e => .error e
      | .ok rest2 => .ok (sec :: rest2)

def fixRefNames (fullNames : List Chars) : List (Nat × BFrag) → Except Err (List (Nat × BFrag))
  | [] => .ok []
  | (pid, BFrag.ref n w) :: rest =>
    if nameEndsDots n then
      match fixAbbreviation fullNames n with
      | .error e => .error e
      | .ok full =>
        match fixRefNames fullNames rest with
        | .error e => .error e
        | .ok rest2 => .ok ((pid, BFrag.ref full w) :: rest2)
    else
      match fixRefNames fullNames rest with
      | .error e => .error e
      | .ok rest2 => .ok ((pid, BFrag.ref n w) :: rest2)
  | f :: rest =>
    match fixRefNames fullNames rest with
    | .error e => .error e
    | .ok rest2 => .ok (f :: rest2)

-- resolve_all_abbreviations: code-section names first, then reference targets,
-- both against the phase-1 full-name set.
def resolveAllAbbrevs (secs : List DSec) (allf : List (Nat × BFrag)) :
    Except Err (List DSec × List (Nat × BFrag)) :=
  let fullNames := collectFullNames secs allf
  match fixSectionNames fullNames secs with
  | .error e => .error e
  | .ok secs2 =>
    match fixRefNames fullNames allf with
    | .error e => .error e
    | .ok allf2 => .ok (secs2, allf2)

end Calypso

namespace Calypso

-- Sanity checks of the reference scanner against the regex semantics.
example : nextRef ("  <<B>>".data) = some ([], "  ".data, "B".data, []) := by decide
example : nextRef ("a <<B>> c".data) = some ("a".data, " ".data, "B".data, " c".data) := by decide
example : nextRef ("a\\<<B>>".data) = some ("a\\".data, [], "B".data, []) := by decide
example : nextRef ("<<a\nx<<B>>".data) = some ("<<a\nx".data, [], "B".data, []) := by decide
example : nextRef ("no refs here".data) = none := by decide
example : nextRef ("<<a>b>>".data) = some ([], [], "a>b".data, []) := by decide
example : pySplitlines ("x\ny".data) = ["x\n".data, "y".data] := by decide
example : pySplitlines ("ab\r\ncd\x0bz".data) = ["ab\r\n".data, "cd\x0b".data, "z".data] := by decide
example : splitLinesKeepNl ("<<X>>=\nab".data) = ["<<X>>=\n".data, "ab".data] := by decide
example : pyStrip ("  a b\t".data) = "a b".data := by decide
example : badName ("a<<b".data) = true := by decide
example : rstripCRLF ("a\r\n\n".data) = "a".data := by decide

-- Splitter sanity checks.
example : splitSectionCal ("  <<B>>".data) =
    .ok ([.plain ("  ".data), .ref ("B".data) ("  ".data)], ["B".data]) := by decide
example : splitSectionCal ("a\\<<n>>b".data) =
    .ok ([.plain ("a".data), .plain ("<<n>>b".data)], []) := by decide
example : splitSectionCal ("\\<<n>>".data) =
    .ok ([.plain ("<<n>>".data)], []) := by decide
example : splitSectionCal ("a<<E>>b".data) =
    .ok ([.plain ("a".data), .ref ("E".data) [], .plain ("b".data)], ["E".data]) := by decide
example : splitSectionCal [] = .ok ([], []) := by decide
example : splitSectionBoot ("a\\<<n>>b".data) =
    .ok ([.plain ("a\\".data), .ref ("n".data) [], .plain ("b".data)], ["n".data]) := by decide
example : calSplit [("A".data, "<<B>>".data), ("B".data, "x".data)] =
    .ok ([("A".data, [.ref ("B".data) []]), ("B".data, [.plain ("x".data)])], ["A".data]) := by
  decide

-- Assembler sanity checks.
example : appendPlain ("  ".data) ("  ".data) ("x\ny".data) = "  x\n  y".data := by decide
example :
    calCoalesce 5 [] ("A".data)
      [("A".data, [.plain ("  ".data), .ref ("B".data) ("  ".data)]),
       ("B".data, [.plain ("x\ny".data)])] [] [] =
    .ok ("  x\n  y".data, []) := by decide
example :
    calCoalesce 5 [] ("A".data)
      [("A".data, [.ref ("B".data) []]), ("B".data, [.ref ("A".data) []])] [] [] =
    .error (.codeSectionRecursion ("A".data)) := by decide

-- Scanner sanity checks.
example : calScan [([], "<<A>>=\n  <<B>>\n<<B>>=\nx\ny\n".data)] [] =
    .ok [("A".data, "  <<B>>".data), ("B".data, "x\ny".data)] := by decide
example : calScan [([], "<<X>>=\na\n@\n<<X>>=\nb\n".data)] [] =
    .ok [("X".data, "a\nb".data)] := by decide
example : calTangle 10 ("<<A>>=\n  <<B>>\n<<B>>=\nx\ny\n".data) =
    .ok [("A".data, "  x\n  y\n".data)] := by decide
example : calTangle 10 ("<<R>>=\nhello\n\n\n".data) =
    .ok [("R".data, "hello\n".data)] := by decide
-- End of file without a trailing newline: conditional strip keeps the text.
example : calScan [([], "<<X>>=\nab".data)] [] = .ok [("X".data, "ab".data)] := by decide
-- The same input through src/code_reader/code_reader.py chops the last character.
example : crScan [([], "<<X>>=\nab".data)] [] = .ok [("X".data, "a".data)] := by decide
-- Include files close the open section and are scanned in place.
example :
    calScan [([], "<<A>>=\na\n@include(inc)\n<<B>>=\nb\n".data), ("inc".data, "<<C>>=\nc\n".data)] [] =
    .ok [("A".data, "a".data), ("C".data, "c".data), ("B".data, "b".data)] := by decide

-- Blue pipeline sanity checks.
example : splitSectionBlue ("a\\<<n>>b".data) =
    .ok [.plain ("a".data), .escRef ("n".data), .plain ("b".data)] := by decide
example :
    blueResolveOne 5 [⟨true, some ("X".data), "a".data⟩, ⟨true, some ("X".data), "b".data⟩]
      ("X".data) = .ok ("a\nb\n".data) := by decide
example :
    blueResolveOne 5 [⟨true, some ("X".data), "\\<<n>>".data⟩] ("X".data) =
    .ok ("<<n>>\n".data) := by decide
example :
    blueResolveOne 5 [⟨true, some ("A".data), "a<<E>>b".data⟩, ⟨true, some ("E".data), []⟩]
      ("A".data) = .ok ("ab\n".data) := by decide
example :
    blueBootResolveOne 5 [⟨true, some ("A".data), "a<<E>>b".data⟩, ⟨true, some ("E".data), []⟩]
      ("A".data) = .error (.noSuchCodeSection ("E".data)) := by decide

-- LIKE-based abbreviation resolution sanity checks.
example : sqlLike ("alpha%".data) ("alpha_setup".data) = true := by decide
example : sqlLike ("alpha_s%".data) ("alpha_teardown".data) = false := by decide
example : sqlLike ("alpha%".data) ("Alpha_setup".data) = true := by decide
example : sqlLike ("a_b%".data) ("aXbcd".data) = true := by decide
example : fixAbbreviation ["alpha_setup".data, "alpha_teardown".data] ("alpha...".data) =
    .error .nonUniqueAbbreviation := by decide
example : fixAbbreviation ["alpha_setup".data, "alpha_teardown".data] ("alpha_s...".data) =
    .ok ("alpha_setup".data) := by decide
example : fixAbbreviation ["Alpha_setup".data] ("alpha...".data) =
    .ok ("Alpha_setup".data) := by decide

/-
  General lemmas about the embedded functions.
-/

-- Lines joined with a separator between consecutive lines.
def joinSep (sep : Chars) : List Chars → Chars
  | [] => []
  | [l] => l
  | l :: l2 :: ls => l ++ sep ++ joinSep sep (l2 :: ls)

lemma appendLines_eq (i : Chars) :
    ∀ (ls : List Chars) (h : Chars) (ni : Bool),
      appendLines i ls h ni =
        h ++ (if ls = [] then [] else (if ni then i else []) ++ joinSep i ls) := by
  intro ls
  induction ls with
  | nil => intro h ni; simp [appendLines]
  | cons l rest ih =>
    intro h ni
    cases rest with
    | nil => simp [appendLines, joinSep]
    | cons l2 rest2 =>
      rw [show appendLines i (l :: l2 :: rest2) h ni =
        appendLines i (l2 :: rest2) ((h ++ (if ni then i else [])) ++ l) true from rfl, ih]
      simp [joinSep, List.append_assoc]

/-
  Characterisation of the plain-fragment emission loop: the caller-supplied
  indentation is inserted between consecutive splitlines lines (that is, right
  after every emitted line boundary) and, when the hunk already ends with a
  newline, once before the first line; nothing else is inserted.
-/
lemma appendPlain_eq (h i s : Chars) :
    appendPlain h i s =
      h ++ (if pySplitlines s = [] then []
            else (if endsWithNl h then i else []) ++ joinSep i (pySplitlines s)) := by
  simp [appendPlain, appendLines_eq]

lemma dropWhile_head_not (p : Char → Bool) :
    ∀ (l : Chars) (c : Char), (l.dropWhile p).head? = some c → p c = false := by
  intro l
  induction l with
  | nil => intro c hc; simp [List.dropWhile] at hc
  | cons a rest ih =>
    intro c hc
    by_cases hp : p a
    · rw [List.dropWhile_cons_of_pos hp] at hc
      exact ih c hc
    · rw [List.dropWhile_cons_of_neg hp] at hc
      simp at hc
      subst hc
      simpa using hp

-- After rstrip("\r\n") the text never ends with a carriage return or newline.
lemma rstripCRLF_last (s : Chars) (c : Char) :
    (rstripCRLF s).getLast? = some c → c ≠ '\r' ∧ c ≠ '\n' := by
  intro hc
  unfold rstripCRLF at hc
  rw [List.getLast?_reverse] at hc
  have := dropWhile_head_not (fun c => c == '\r' || c == '\n') s.reverse c hc
  simp at this
  exact this

lemma dropWhile_replicate_append (p : Char → Bool) (c : Char) (hp : p c = true) :
    ∀ (k : Nat) (l : Chars), (List.replicate k c ++ l).dropWhile p = l.dropWhile p := by
  intro k
  induction k with
  | zero => intro l; simp
  | succ n ih => intro l; simp [List.replicate_succ, List.dropWhile_cons_of_pos hp, ih]

-- Trailing blank lines never survive the final normalisation.
lemma rstripCRLF_append_newlines (s : Chars) (k : Nat) :
    rstripCRLF (s ++ List.replicate k '\n') = rstripCRLF s := by
  unfold rstripCRLF
  rw [List.reverse_append, List.reverse_replicate]
  rw [dropWhile_replicate_append _ '\n' (by decide)]

-- Every entry produced by the per-root output loop has the rstrip-plus-newline shape.
lemma buildOutputs_mem (fuel : Nat) (d : List (Chars × List Frag)) :
    ∀ (roots : List Chars) (m : List (Chars × Chars)) (nm out : Chars),
      buildOutputs fuel d roots = .ok m → (nm, out) ∈ m →
      ∃ t, out = rstripCRLF t ++ ['\n'] := by
  intro roots
  induction roots with
  | nil =>
    intro m nm out hok hmem
    simp [buildOutputs] at hok
    subst hok
    simp at hmem
  | cons r rs ih =>
    intro m nm out hok hmem
    simp only [buildOutputs] at hok
    cases hco : calCoalesce fuel [] r d [] [] with
    | error e => rw [hco] at hok; exact absurd hok (by simp)
    | ok p =>
      rcases p with ⟨ph, pst⟩
      rw [hco] at hok
      cases hbo : buildOutputs fuel d rs with
      | error e => rw [hbo] at hok; exact absurd hok (by simp)
      | ok outs =>
        rw [hbo] at hok
        simp at hok
        subst hok
        rcases List.mem_cons.mp hmem with hhead | htail
        · exact ⟨ph, by simp at hhead; exact hhead.2⟩
        · exact ih outs nm out hbo htail

-- The stack discipline of the calypso assembler: a successful call returns the
-- stack it was given.
lemma coalListCal_stack
    (step : Chars → Chars → List Chars → Chars → Except Err (Chars × List Chars))
    (indent : Chars)
    (hstep : ∀ h n st i h2 st2, step h n st i = .ok (h2, st2) → st2 = st) :
    ∀ (fs : List Frag) (h : Chars) (st : List Chars) (h2 : Chars) (st2 : List Chars),
      coalListCal step indent fs h st = .ok (h2, st2) → st2 = st := by
  intro fs
  induction fs with
  | nil =>
    intro h st h2 st2 hh
    simp [coalListCal] at hh
    exact hh.2.symm
  | cons f rest ih =>
    intro h st h2 st2 hh
    cases f with
    | plain s =>
      simp only [coalListCal] at hh
      exact ih _ _ _ _ hh
    | ref n w =>
      simp only [coalListCal] at hh
      cases hs : step h n st (indent ++ w) with
      | error e => rw [hs] at hh; exact absurd hh (by simp)
      | ok p =>
        rw [hs] at hh
        have hp : p.2 = st := hstep _ _ _ _ _ _ (by rw [hs])
        have := ih _ _ _ _ hh
        rw [this, hp]

lemma calCoalesce_stack :
    ∀ (fuel : Nat) (h name : Chars) (d : List (Chars × List Frag)) (st : List Chars)
      (i h2 : Chars) (st2 : List Chars),
      calCoalesce fuel h name d st i = .ok (h2, st2) → st2 = st := by
  intro fuel
  induction fuel with
  | zero => intro h name d st i h2 st2 hh; exact absurd hh (by simp [calCoalesce])
  | succ fl ih =>
    intro h name d st i h2 st2 hh
    simp only [calCoalesce] at hh
    by_cases hmem : name ∈ st
    · rw [if_pos hmem] at hh; exact absurd hh (by simp)
    · rw [if_neg hmem] at hh
      split at hh
      · exact absurd hh (by simp)
      · rename_i frags hlk
        split at hh
        · exact absurd hh (by simp)
        · rename_i ph pst hcl
          have hp : pst = name :: st :=
            coalListCal_stack _ _ (fun a b c i2 e f hx => ih a b d c i2 e f hx)
              frags h (name :: st) ph pst hcl
          simp at hh
          rw [← hh.2, hp]
          simp

-- The same stack discipline for the blue assembler.
lemma coalListBlue_stack
    (step : Chars → Chars → List Chars → List Chars → Chars →
      Except Err (Chars × List Chars × List Chars))
    (indent : Chars)
    (hstep : ∀ h n st nr i h2 st2 nr2, step h n st nr i = .ok (h2, st2, nr2) → st2 = st) :
    ∀ (fs : List (Nat × BFrag)) (h : Chars) (st nr : List Chars) (cur : Option Nat)
      (sep h2 : Chars) (st2 nr2 : List Chars),
      coalListBlue step indent fs h st nr cur sep = .ok (h2, st2, nr2) → st2 = st := by
  intro fs
  induction fs with
  | nil =>
    intro h st nr cur sep h2 st2 nr2 hh
    simp [coalListBlue] at hh
    exact hh.2.1.symm
  | cons pf rest ih =>
    intro h st nr cur sep h2 st2 nr2 hh
    rcases pf with ⟨pid, f⟩
    cases f with
    | plain s =>
      simp only [coalListBlue] at hh
      exact ih _ _ _ _ _ _ _ _ hh
    | escRef n =>
      simp only [coalListBlue] at hh
      exact ih _ _ _ _ _ _ _ _ hh
    | ref n w =>
      simp only [coalListBlue] at hh
      split at hh
      · exact absurd hh (by simp)
      · rename_i ph pst pnr hs
        have hp : pst = st := hstep _ _ _ _ _ _ _ _ hs
        have := ih _ _ _ _ _ _ _ _ hh
        rw [this, hp]

lemma blueCoalesce_stack :
    ∀ (fuel : Nat) (secs : List DSec) (allf : List (Nat × BFrag)) (name : Chars)
      (so : Option (List Chars)) (h i : Chars) (nr : List Chars) (h2 : Chars)
      (st2 nr2 : List Chars),
      blueCoalesce fuel secs allf name so h i nr = .ok (h2, st2, nr2) →
      st2 = (match so with | none => [] | some st => st) := by
  intro fuel
  induction fuel with
  | zero =>
    intro secs allf name so h i nr h2 st2 nr2 hh
    exact absurd hh (by simp [blueCoalesce])
  | succ fl ih =>
    intro secs allf name so h i nr h2 st2 nr2 hh
    cases so with
    | none =>
      simp only [blueCoalesce] at hh
      split at hh
      · exact absurd hh (by simp)
      · split at hh
        · exact absurd hh (by simp)
        · split at hh
          · exact absurd hh (by simp)
          · rename_i ph pst pnr hcl
            have hp : pst = name :: [] :=
              coalListBlue_stack _ _
                (fun a b c d e f g k hx => ih secs allf b (some c) a e d f g k hx)
                _ _ _ _ _ _ _ _ _ hcl
            simp at hh
            rw [← hh.2.1, hp]
            simp
    | some st =>
      simp only [blueCoalesce] at hh
      split at hh
      · exact absurd hh (by simp)
      · split at hh
        · exact absurd hh (by simp)
        · split at hh
          · exact absurd hh (by simp)
          · rename_i ph pst pnr hcl
            have hp : pst = name :: st :=
              coalListBlue_stack _ _
                (fun a b c d e f g k hx => ih secs allf b (some c) a e d f g k hx)
                _ _ _ _ _ _ _ _ _ hcl
            simp at hh
            rw [← hh.2.1, hp]
            simp

-- Dictionary update lemma used by the definition-concatenation proof.
lemma alookup_aset_self {α : Type} :
    ∀ (l : List (Chars × α)) (k : Chars) (v : α), alookup (aset l k v) k = some v := by
  intro l
  induction l with
  | nil => intro k v; simp [aset, alookup]
  | cons p rest ih =>
    intro k v
    rcases p with ⟨k0, v0⟩
    by_cases hk : k0 = k
    · simp [aset, hk, alookup]
    · simp [aset, hk, alookup, ih]

-- Closing successive definitions of one name accumulates with single-newline
-- separators, exactly as close_code_section appends.
lemma closeFold_aux (name : Chars) :
    ∀ (ts : List Chars) (secs0 : List (Chars × Chars)) (acc : Chars),
      alookup secs0 name = some acc →
      alookup ((ts.foldl
          (fun st t => closeCodeSection { current := some (name, t), secs := st.secs })
          ⟨none, secs0⟩).secs) name =
        some (ts.foldl (fun a t => a ++ '\n' :: stripTrailingNl t) acc) := by
  intro ts
  induction ts with
  | nil => intro secs0 acc h; simpa using h
  | cons t rest ih =>
    intro secs0 acc h
    rw [List.foldl_cons, List.foldl_cons]
    have hstep : closeCodeSection { current := some (name, t), secs := secs0 } =
        (⟨none, aset secs0 name (acc ++ '\n' :: stripTrailingNl t)⟩ : ScanSt) := by
      simp [closeCodeSection, h]
    rw [hstep]
    exact ih _ _ (alookup_aset_self _ _ _)

lemma foldl_sepjoin (f : Chars → Chars) :
    ∀ (rest : List Chars) (acc : Chars),
      rest.foldl (fun a t => a ++ '\n' :: f t) acc =
        acc ++ (rest.map (fun t => '\n' :: f t)).flatten := by
  intro rest
  induction rest with
  | nil => intro acc; simp
  | cons t r ih =>
    intro acc
    rw [List.foldl_cons, ih]
    simp [List.append_assoc]

lemma joinSep_map (f : Chars → Chars) :
    ∀ (ts : List Chars) (t0 : Chars),
      joinSep ['\n'] ((t0 :: ts).map f) =
        f t0 ++ (ts.map (fun t => '\n' :: f t)).flatten := by
  intro ts
  induction ts with
  | nil => intro t0; simp [joinSep]
  | cons t1 rest ih =>
    intro t0
    rw [List.map_cons, List.map_cons, joinSep, ← List.map_cons, ih t1]
    simp [List.append_assoc]

/-
  Claim theorems.
-/

/-- C1 counterexample: with section A being the single line with two spaces then
a reference to B, and B being the two lines x and y, the pipeline outputs
two spaces, x, newline, two spaces, y, newline -- not the claimed output that
drops the leading two spaces before x (the captured whitespace also stays in
the plain text of A, so the first spliced line inherits the column it follows). -/
theorem c1_counterexample :
    calTangle 10 ("<<A>>=\n  <<B>>\n<<B>>=\nx\ny\n".data) =
      .ok [("A".data, "  x\n  y\n".data)] ∧
    "  x\n  y\n".data ≠ "x\n  y\n".data := ⟨by decide, by decide⟩

/-- C1 amended: a reference expands with indentation equal to the caller indent
plus the captured whitespace (additive with recursion depth, never replaced);
the accumulated indentation is applied exactly at the start of every emitted
line that follows an already-emitted line boundary (and before the first line
only when the hunk already ends with a newline); assembling A yields the text
two spaces, x, newline, two spaces, y, newline, since the captured whitespace
also remains in the plain text so the first line of B is spliced in place and
never re-indented; a two-level nest shows the indents accumulating. -/
theorem c1_amended :
    (∀ (h i s : Chars), appendPlain h i s =
        h ++ (if pySplitlines s = [] then []
              else (if endsWithNl h then i else []) ++ joinSep i (pySplitlines s))) ∧
    (∀ (fuel : Nat) (h a b w : Chars) (d : List (Chars × List Frag)) (st : List Chars)
        (i : Chars), alookup d a = some [Frag.ref b w] → ¬ a ∈ st →
        calCoalesce (fuel + 1) h a d st i =
          match calCoalesce fuel h b d (a :: st) (i ++ w) with
          | .error e => .error e
          | .ok (h2, st2) => .ok (h2, st2.tail)) ∧
    calTangle 10 ("<<A>>=\n  <<B>>\n<<B>>=\nx\ny\n".data) =
      .ok [("A".data, "  x\n  y\n".data)] ∧
    calTangle 10 ("<<A>>=\n  <<B>>\n<<B>>=\n\t<<C>>\n<<C>>=\nx\ny\n".data) =
      .ok [("A".data, "  \tx\n  \ty\n".data)] := by
  refine ⟨appendPlain_eq, ?_, by decide, by decide⟩
  intro fuel h a b w d st i hlk hst
  simp only [calCoalesce, if_neg hst, hlk]
  cases hres : calCoalesce fuel h b d (a :: st) (i ++ w) with
  | error e => simp [coalListCal, hres]
  | ok p =>
    rcases p with ⟨ph, pst⟩
    simp [coalListCal, hres]

theorem c1_amended_witness :
    alookup [("A".data, [Frag.ref ("B".data) ("  ".data)])] ("A".data) =
      some [Frag.ref ("B".data) ("  ".data)] ∧
    ¬ ("A".data) ∈ ([] : List Chars) ∧
    calCoalesce 3 [] ("A".data) [("A".data, [Frag.ref ("B".data) ("  ".data)])] [] [] =
      match calCoalesce 2 [] ("B".data) [("A".data, [Frag.ref ("B".data) ("  ".data)])]
          ["A".data] ([] ++ "  ".data) with
      | .error e => .error e
      | .ok (h2, st2) => .ok (h2, st2.tail) :=
  ⟨by decide, by decide,
    c1_amended.2.1 2 [] ("A".data) ("B".data) ("  ".data)
      [("A".data, [Frag.ref ("B".data) ("  ".data)])] [] [] (by decide) (by decide)⟩

/-- C2: after the recursive assembly is built, all trailing carriage returns and
newlines are stripped and exactly one newline is appended: every entry of the
output mapping ends in a newline whose predecessor is neither a newline nor a
carriage return; appending trailing blank lines to a text never changes the
normalisation; a root section with no references tangles to its own code plus
exactly one trailing newline regardless of trailing blank lines. -/
theorem c2_exactly_one_trailing_newline :
    (∀ (fuel : Nat) (env : List (Chars × Chars)) (root : Chars)
        (m : List (Chars × Chars)) (nm out : Chars),
        calGetCodeFiles fuel env root = .ok m → (nm, out) ∈ m →
        out.getLast? = some '\n' ∧
          ∀ c, out.dropLast.getLast? = some c → c ≠ '\n' ∧ c ≠ '\r') ∧
    (∀ (s : Chars) (k : Nat), rstripCRLF (s ++ List.replicate k '\n') = rstripCRLF s) ∧
    calTangle 10 ("<<R>>=\nhello\n\n\n".data) = .ok [("R".data, "hello\n".data)] ∧
    calTangle 10 ("<<R>>=\na\n\nb\n\n\n".data) = .ok [("R".data, "a\n\nb\n".data)] := by
  refine ⟨?_, rstripCRLF_append_newlines, by decide, by decide⟩
  intro fuel env root m nm out hok hmem
  simp only [calGetCodeFiles] at hok
  split at hok
  · exact absurd hok (by simp)
  · split at hok
    · exact absurd hok (by simp)
    · rename_i d roots hsp
      obtain ⟨t, ht⟩ := buildOutputs_mem fuel d roots m nm out hok hmem
      subst ht
      refine ⟨by rw [List.getLast?_concat], ?_⟩
      intro c hc
      rw [List.dropLast_concat] at hc
      have hlast := rstripCRLF_last t c hc
      exact ⟨hlast.2, hlast.1⟩

theorem c2_witness :
    calGetCodeFiles 10 [([], "<<R>>=\nhello\n\n\n".data)] [] =
      .ok [("R".data, "hello\n".data)] ∧
    ("R".data, "hello\n".data) ∈ [("R".data, "hello\n".data)] ∧
    ("hello\n".data).getLast? = some '\n' ∧
    (∀ c, ("hello\n".data).dropLast.getLast? = some c → c ≠ '\n' ∧ c ≠ '\r') := by
  refine ⟨by decide, by decide, ?_⟩
  exact c2_exactly_one_trailing_newline.1 10 [([], "<<R>>=\nhello\n\n\n".data)] []
    [("R".data, "hello\n".data)] ("R".data) ("hello\n".data) (by decide) (by decide)

/-- C3: successive definitions of one canonical name concatenate in order of
appearance with exactly one newline between consecutive stored texts (the
accumulation law of close_code_section); the calypso pipeline on two sections
named X containing a and b emits a, newline, b, newline; the blue assembler
reaches the same text through its document-section separator. -/
theorem c3_definitions_concatenate :
    (∀ (name : Chars) (ts : List Chars) (t0 : Chars),
        alookup ((List.foldl
            (fun st t => closeCodeSection { current := some (name, t), secs := st.secs })
            (⟨none, []⟩ : ScanSt) (t0 :: ts)).secs) name =
          some (joinSep ['\n'] ((t0 :: ts).map stripTrailingNl))) ∧
    calTangle 10 ("<<X>>=\na\n@\n<<X>>=\nb\n".data) = .ok [("X".data, "a\nb\n".data)] ∧
    blueResolveOne 5 [⟨true, some ("X".data), "a".data⟩, ⟨true, some ("X".data), "b".data⟩]
      ("X".data) = .ok ("a\nb\n".data) := by
  refine ⟨?_, by decide, by decide⟩
  intro name ts t0
  simp only [List.foldl_cons]
  rw [show closeCodeSection { current := some (name, t0), secs := (⟨none, []⟩ : ScanSt).secs } =
      (⟨none, [(name, stripTrailingNl t0)]⟩ : ScanSt) from by simp [closeCodeSection, alookup]]
  rw [closeFold_aux name ts [(name, stripTrailingNl t0)] (stripTrailingNl t0)
    (by simp [alookup])]
  rw [foldl_sepjoin, joinSep_map]

/-- C4: expanding a name that is already on the open-name stack fails with
CodeSectionRecursion for every fragment dictionary (hence before any fragment
of that name is expanded), in both the calypso and the blue assemblers; the
mutual cycle of A and B fails end to end in both. -/
theorem c4_cycle_detected :
    (∀ (fuel : Nat) (h name : Chars) (d : List (Chars × List Frag)) (st : List Chars)
        (i : Chars), name ∈ st →
        calCoalesce (fuel + 1) h name d st i = .error (.codeSectionRecursion name)) ∧
    (∀ (fuel : Nat) (secs : List DSec) (allf : List (Nat × BFrag)) (name : Chars)
        (st : List Chars) (h i : Chars) (nr : List Chars), name ∈ st →
        blueCoalesce (fuel + 1) secs allf name (some st) h i nr =
          .error (.codeSectionRecursion name)) ∧
    calCoalesce 5 [] ("A".data)
      [("A".data, [.ref ("B".data) []]), ("B".data, [.ref ("A".data) []])] [] [] =
      .error (.codeSectionRecursion ("A".data)) ∧
    blueResolveOne 5 [⟨true, some ("A".data), "<<B>>".data⟩, ⟨true, some ("B".data), "<<A>>".data⟩]
      ("A".data) = .error (.codeSectionRecursion ("A".data)) := by
  refine ⟨?_, ?_, by decide, by decide⟩
  · intro fuel h name d st i hmem
    simp [calCoalesce, hmem]
  · intro fuel secs allf name st h i nr hmem
    simp [blueCoalesce, hmem]

theorem c4_witness :
    ("A".data) ∈ ["A".data] ∧
    calCoalesce 1 [] ("A".data) [] ["A".data] [] =
      .error (.codeSectionRecursion ("A".data)) :=
  ⟨by decide, c4_cycle_detected.1 0 [] ("A".data) [] ["A".data] [] (by decide)⟩

/-- C5 counterexample: the resolver matches through sqlite LIKE, which is
ASCII-case-insensitive and treats the underscore as a single-character
wildcard, so an abbreviation with zero byte-exact prefix matches can still
resolve: alpha dots resolves to Alpha_setup although no full name has the
byte-exact prefix alpha, and alpha_s dots resolves to alphaXsetup although no
full name has the byte-exact prefix alpha_s; the claim says both must fail
with NonUniqueAbbreviation. -/
theorem c5_counterexample :
    fixAbbreviation ["Alpha_setup".data] ("alpha...".data) = .ok ("Alpha_setup".data) ∧
    (["Alpha_setup".data].filter (fun n => ("alpha".data).isPrefixOf n)).length = 0 ∧
    fixAbbreviation ["alphaXsetup".data] ("alpha_s...".data) = .ok ("alphaXsetup".data) ∧
    (["alphaXsetup".data].filter (fun n => ("alpha_s".data).isPrefixOf n)).length = 0 :=
  ⟨by decide, by decide, by decide, by decide⟩

/-- C5 amended: the resolver strips the three-dot suffix and matches the
remaining prefix as an sqlite LIKE prefix pattern (ASCII-case-insensitive,
with percent and underscore in the prefix acting as wildcards) against the
phase-1 full-name set: exactly one match rewrites the occurrence to that
match, zero or several matches fail with NonUniqueAbbreviation; with full
names alpha_setup and alpha_teardown, alpha dots fails and alpha_s dots
rewrites to alpha_setup. -/
theorem c5_amended :
    (∀ (fullNames : List Chars) (name : Chars), nameEndsDots name →
        (∀ m, (resolveAbbrevMatches fullNames (name.take (name.length - 3))).dedup = [m] →
            fixAbbreviation fullNames name = .ok m) ∧
        ((resolveAbbrevMatches fullNames (name.take (name.length - 3))).dedup.length ≠ 1 →
            fixAbbreviation fullNames name = .error .nonUniqueAbbreviation)) ∧
    fixAbbreviation ["alpha_setup".data, "alpha_teardown".data] ("alpha...".data) =
      .error .nonUniqueAbbreviation ∧
    fixAbbreviation ["alpha_setup".data, "alpha_teardown".data] ("alpha_s...".data) =
      .ok ("alpha_setup".data) ∧
    resolveAllAbbrevs
      [⟨true, some ("alpha_setup".data), "s".data⟩, ⟨true, some ("alpha_teardown".data), "t".data⟩,
       ⟨true, some ("root".data), "<<alpha_s...>>".data⟩]
      [(3, BFrag.ref ("alpha_s...".data) [])] =
      .ok ([⟨true, some ("alpha_setup".data), "s".data⟩,
            ⟨true, some ("alpha_teardown".data), "t".data⟩,
            ⟨true, some ("root".data), "<<alpha_s...>>".data⟩],
           [(3, BFrag.ref ("alpha_setup".data) [])]) := by
  refine ⟨?_, by decide, by decide, by decide⟩
  intro fullNames name _
  constructor
  · intro m hm
    simp [fixAbbreviation, hm]
  · intro hlen
    unfold fixAbbreviation
    cases hms : (resolveAbbrevMatches fullNames (name.take (name.length - 3))).dedup with
    | nil => simp
    | cons a rest =>
      cases rest with
      | nil =>
        exact absurd (by rw [hms]; rfl) hlen
      | cons b rest2 => simp

theorem c5_amended_witness :
    nameEndsDots ("alpha_s...".data) = true ∧
    fixAbbreviation ["alpha_setup".data] ("alpha_s...".data) = .ok ("alpha_setup".data) :=
  ⟨by decide,
    (c5_amended.1 ["alpha_setup".data] ("alpha_s...".data) (by decide)).1
      ("alpha_setup".data) (by decide)⟩

/-- C6: calypso raises NoRootCodeSectionsFound whenever the root set (names
minus referenced names) is empty, as the claim says; src/bootstrap raises only
when the referenced set EQUALS the name set, so when a cycle also references an
undefined name it silently emits an empty output mapping; on a pure two-name
cycle both implementations raise. -/
theorem c6_empty_root_set :
    calTangleSecs 5 [("A".data, "<<B>>".data), ("B".data, "<<A>>\n<<C>>".data)] =
      .error .noRootCodeSectionsFound ∧
    bootTangleSecs 5 [("A".data, "<<B>>".data), ("B".data, "<<A>>\n<<C>>".data)] = .ok [] ∧
    bootTangleSecs 5 [("A".data, "<<B>>".data), ("B".data, "<<A>>".data)] =
      .error .noRootCodeSectionsFound :=
  ⟨by decide, by decide, by decide⟩

/-- C7: an escaped reference drops the escape character from the preceding
plain text, assembles to the literal reference text without recursing into the
name (here the name has no definition, so recursion would fail), and does not
count as referencing the name: when the name is defined it remains a root and
is emitted on its own; the blue assembler emits the same literal. -/
theorem c7_escaped_reference :
    calTangle 10 ("<<X>>=\n\\<<n>>\n".data) = .ok [("X".data, "<<n>>\n".data)] ∧
    calTangle 10 ("<<X>>=\n\\<<n>>\n<<n>>=\nstuff\n".data) =
      .ok [("X".data, "<<n>>\n".data), ("n".data, "stuff\n".data)] ∧
    splitSectionCal ("\\<<n>>".data) = .ok ([.plain ("<<n>>".data)], []) ∧
    blueResolveOne 5 [⟨true, some ("X".data), "\\<<n>>".data⟩] ("X".data) =
      .ok ("<<n>>\n".data) :=
  ⟨by decide, by decide, by decide, by decide⟩

/-- C8: referencing a name with zero definitions fails with NoSuchCodeSection at
assembly time, and a name defined only by an empty code section is legal and
contributes empty text, in calypso and in blue; the blue bootstrap assembler
instead counts fragments, so the same empty definition fails there. -/
theorem c8_missing_vs_empty :
    calTangleSecs 5 [("A".data, "a<<E>>b".data), ("E".data, [])] =
      .ok [("A".data, "ab\n".data)] ∧
    calTangleSecs 5 [("A".data, "<<M>>".data)] = .error (.noSuchCodeSection ("M".data)) ∧
    blueResolveOne 5 [⟨true, some ("A".data), "a<<E>>b".data⟩, ⟨true, some ("E".data), []⟩]
      ("A".data) = .ok ("ab\n".data) ∧
    blueBootResolveOne 5 [⟨true, some ("A".data), "a<<E>>b".data⟩, ⟨true, some ("E".data), []⟩]
      ("A".data) = .error (.noSuchCodeSection ("E".data)) :=
  ⟨by decide, by decide, by decide, by decide⟩

/-- C9: every boundary (new code-section marker, documentation marker, include
directive, end of file) closes the section in progress; closing strips exactly
one trailing newline when the text ends with one, keeps the text unchanged
otherwise, and keeps the section even when empty -- as the bootstrap and
calypso scanners do; src/code_reader chops the last character unconditionally,
so a file whose last code line has no trailing newline loses that character. -/
theorem c9_close_boundaries :
    calScan
      [([], "<<A>>=\na\n<<B>>=\nb\n@\n<<E>>=\n@\n<<F>>=\nf\n\n@\n<<C>>=\nc\n@include(inc)\n<<D>>=\nd".data),
       ("inc".data, "z\n".data)] [] =
      .ok [("A".data, "a".data), ("B".data, "b".data), ("E".data, []), ("F".data, "f\n".data),
           ("C".data, "c".data), ("D".data, "d".data)] ∧
    calScan [([], "<<X>>=\nab".data)] [] = .ok [("X".data, "ab".data)] ∧
    crScan [([], "<<X>>=\nab".data)] [] = .ok [("X".data, "a".data)] ∧
    "ab".data ≠ "a".data :=
  ⟨by decide, by decide, by decide, by decide⟩

/-- C10: a successful assembly returns the open-name stack exactly as it found
it (the name pushed on entry is popped before returning), in the calypso
assembler and in the blue assembler both for recursive calls (stack given) and
for the top-level call (fresh stack). -/
theorem c10_stack_restored :
    (∀ (fuel : Nat) (h name : Chars) (d : List (Chars × List Frag)) (st : List Chars)
        (i h2 : Chars) (st2 : List Chars),
        calCoalesce fuel h name d st i = .ok (h2, st2) → st2 = st) ∧
    (∀ (fuel : Nat) (secs : List DSec) (allf : List (Nat × BFrag)) (name : Chars)
        (st : List Chars) (h i : Chars) (nr : List Chars) (h2 : Chars)
        (st2 nr2 : List Chars),
        blueCoalesce fuel secs allf name (some st) h i nr = .ok (h2, st2, nr2) → st2 = st) ∧
    (∀ (fuel : Nat) (secs : List DSec) (allf : List (Nat × BFrag)) (name : Chars)
        (h i : Chars) (nr : List Chars) (h2 : Chars) (st2 nr2 : List Chars),
        blueCoalesce fuel secs allf name none h i nr = .ok (h2, st2, nr2) → st2 = []) := by
  refine ⟨calCoalesce_stack, ?_, ?_⟩
  · intro fuel secs allf name st h i nr h2 st2 nr2 hh
    exact blueCoalesce_stack fuel secs allf name (some st) h i nr h2 st2 nr2 hh
  · intro fuel secs allf name h i nr h2 st2 nr2 hh
    exact blueCoalesce_stack fuel secs allf name none h i nr h2 st2 nr2 hh

theorem c10_witness :
    calCoalesce 5 [] ("A".data) [("A".data, [Frag.plain ("x".data)])] ["S".data] [] =
      .ok ("x".data, ["S".data]) ∧
    (("x".data, ["S".data]) : Chars × List Chars).2 = ["S".data] :=
  ⟨by decide,
    c10_stack_restored.1 5 [] ("A".data) [("A".data, [Frag.plain ("x".data)])]
      ["S".data] [] ("x".data) ["S".data] (by decide)⟩

end Calypso
